import Mathlib

/-!
Verification of the Ruuvi measurement-browser single-page application and the
measurement query subsystem it talks to.  Pure functions of the JavaScript
front end (window-width selection, minMax, periodToMillis, the URL-hash
serialization, the chart series construction, the measurement-type dispatch)
are embedded directly; strings are embedded as lists of characters and JS
numbers as rationals or integers.  The server side (recent buffer,
aggregation engine, query service) is not part of the sources, so those
components are modelled from the specification, as marked on each definition.
-/

/-- Window width (in seconds) chosen from the query span, from the Chart
component: a span under one day uses 60 s buckets, under seven days 3600 s,
under 32 days 10800 s, and 86400 s otherwise. -/
def windowSecsForSpan (periodSecs : ℤ) : ℤ :=
  if periodSecs < 86400 then 60
  else if periodSecs < 7 * 86400 then 3600
  else if periodSecs < 32 * 86400 then 10800
  else 86400

/-- Numeric value of an all-digit character list, as JS Number produces on an
all-digit string. -/
def digitsToNat (s : List Char) : ℕ :=
  s.foldl (fun acc c => 10 * acc + (c.toNat - 48)) 0

/-- JS ToNumber coercion of a string, on the fragment used by periodToMillis:
the empty string coerces to 0, an all-digit string to its numeric value, and
anything else to NaN, which is modelled as none. -/
def jsStringToNumber (s : List Char) : Option ℤ :=
  if s = [] then some 0
  else if s.all Char.isDigit then some (digitsToNat s)
  else none

/-- periodToMillis from spa.js: the unit is the last character of the period
string (charAt of length minus one, the empty string when out of range), the
amount is the rest (substring 0 to length minus one); unit h multiplies the
amount by 60*60*1000, unit d by 24*60*60*1000, any other unit throws an
Unknown-unit error.  The thrown error is the .error case; the Option in the
.ok case models a JS number that may be NaN. -/
def periodToMillis (period : List Char) : Except (List Char) (Option ℤ) :=
  let unit : List Char := match period.getLast? with
    | some c => [c]
    | none => []
  let amount := period.dropLast
  if unit = ['h'] then
    .ok ((jsStringToNumber amount).map (fun n => n * (60 * 60 * 1000)))
  else if unit = ['d'] then
    .ok ((jsStringToNumber amount).map (fun n => n * (24 * 60 * 60 * 1000)))
  else
    .error ("Unknown unit: ".toList ++ unit)

/-- One step of the minMax scan from spa.js: the running minimum is replaced
when it is still null or the value is strictly below it, the running maximum
when it is still null or the value is at least it. -/
def minMaxStep (mm : Option ℚ × Option ℚ) (v : ℚ) : Option ℚ × Option ℚ :=
  let newMin : Option ℚ := match mm.1 with
    | none => some v
    | some m => if v < m then some v else some m
  let newMax : Option ℚ := match mm.2 with
    | none => some v
    | some m => if v ≥ m then some v else some m
  (newMin, newMax)

/-- minMax from spa.js over a two-dimensional array of numbers: scans the rows
from index startDim onward and returns the running minimum and maximum, both
null when nothing was scanned. -/
def minMax (twoDArray : List (List ℚ)) (startDim : ℕ) : Option ℚ × Option ℚ :=
  (twoDArray.drop startDim).foldl (fun acc row => row.foldl minMaxStep acc) (none, none)

/-- Scale record produced by the scale constructors in spa.js.  The values
formatter closure is represented by the unit suffix it appends; a field a
constructor leaves absent is none, matching the undefined JS read. -/
structure UScale where
  scale : String
  auto : Option Bool
  range : Option (ℚ × ℚ)
  unitSuffix : String
deriving DecidableEq

/-- scaleFromMeasurementTypeAndUnit from spa.js: a plain scale with only the
name and the tick formatter unit. -/
def scaleFromMeasurementTypeAndUnit (measurementType : String) (unit : String) : UScale :=
  { scale := measurementType, auto := none, range := none, unitSuffix := unit }

/-- scaleForTemperature from spa.js: the fixed range [2, 24] is dropped in
favor of auto ranging when the data minimum lies below it or (else if) the
maximum lies above it; rows from index 1 onward are scanned. -/
def scaleForTemperature (values : List (List ℚ)) : UScale :=
  let mm := minMax values 1
  let range : Option (ℚ × ℚ) :=
    match mm with
    | (some mn, some mx) =>
      if mn < 2 then none
      else if mx > 24 then none
      else some (2, 24)
    | _ => some (2, 24)
  { scale := "temperature", auto := some range.isNone, range := range, unitSuffix := " °C" }

/-- scaleForHumidity from spa.js: the range starts at [15, 75]; the lower
bound widens to 0 when the data minimum is below it and the upper bound to
100 when the maximum is above it; auto is always false. -/
def scaleForHumidity (values : List (List ℚ)) : UScale :=
  let mm := minMax values 1
  let range : ℚ × ℚ :=
    match mm with
    | (some mn, some mx) =>
      ((if mn < 15 then (0 : ℚ) else 15), (if mx > 75 then (100 : ℚ) else 75))
    | _ => (15, 75)
  { scale := "humidity", auto := some false, range := some range, unitSuffix := " %" }

/-- scaleForPressure from spa.js: every entry of the rows from index 1 onward
is divided by 100 (the source mutates the array in place; the transformed
rows are returned alongside the scale), and the fixed range [980, 1035]
falls back to auto when any scaled value leaves it. -/
def scaleForPressure (values : List (List ℚ)) : UScale × List (List ℚ) :=
  let newValues : List (List ℚ) :=
    match values with
    | [] => []
    | ts :: rows => ts :: rows.map (fun row => row.map (fun v => v / 100))
  let outOfRange : Bool :=
    match values with
    | [] => false
    | _ :: rows =>
      rows.any (fun row => row.any (fun v => decide (v / 100 < 980) || decide (v / 100 > 1035)))
  let range : Option (ℚ × ℚ) := if outOfRange then none else some (980, 1035)
  ({ scale := "pressure", auto := some range.isNone, range := range, unitSuffix := " hPa" },
   newValues)

/-- The draw hooks installed for the pressure scale, represented by the scale
name the closure captures. -/
structure PressureHooks where
  scaleName : String
deriving DecidableEq

/-- pressureHooksFromScaleName from spa.js. -/
def pressureHooksFromScaleName (scaleName : String) : PressureHooks := ⟨scaleName⟩

/-- The measurement types the front end recognizes. -/
def recognizedMeasurementTypes : List String :=
  ["temperature", "humidity", "pressure", "battery_voltage", "tx_power"]

/-- scaleAndHooksForMeasurementTypeAndValues from spa.js: dispatch on the
measurement-type string; the fall-through branch (console.assert false and an
implicit undefined return) is the none case. -/
def scaleAndHooksForMeasurementTypeAndValues (measurementType : String)
    (values : List (List ℚ)) : Option (UScale × Option PressureHooks) :=
  if measurementType = "temperature" then some (scaleForTemperature values, none)
  else if measurementType = "humidity" then some (scaleForHumidity values, none)
  else if measurementType = "pressure" then
    let scale := (scaleForPressure values).1
    some (scale, some (pressureHooksFromScaleName scale.scale))
  else if measurementType = "battery_voltage" then
    some (scaleFromMeasurementTypeAndUnit measurementType "V", none)
  else if measurementType = "tx_power" then
    some (scaleFromMeasurementTypeAndUnit measurementType "dBm", none)
  else none

/-- One element of the uPlot series array built by
seriesAndBandsFromSensorsAndScaleName.  The dash array is represented by its
single entry, the stroke by the color-table lookup (none past the table's
end), and the leading empty object has every field absent. -/
structure PlotSeries where
  label : Option String
  scale : Option String
  stroke : Option String
  width : Option ℚ
  dash : Option ℕ
  spanGaps : Bool
deriving DecidableEq

/-- One uPlot band object built by seriesAndBandsFromSensorsAndScaleName;
showFlag embeds the JS field named show. -/
structure PlotBand where
  showFlag : Bool
  series : List ℕ
  fill : String
deriving DecidableEq

/-- The color table from spa.js, already rendered to rgb strings. -/
def colors : List String :=
  ["rgb(0, 0, 0)", "rgb(230, 159, 0)", "rgb(86, 180, 233)", "rgb(0, 158, 115)",
   "rgb(240, 228, 66)", "rgb(0, 114, 178)", "rgb(213, 94, 0)", "rgb(204, 121, 167)"]

/-- The leading empty object the series accumulator starts with. -/
def emptySeries : PlotSeries :=
  { label := none, scale := none, stroke := none, width := none, dash := none,
    spanGaps := false }

/-- The Low series pushed for one sensor when summaries are shown. -/
def lowSeriesFor (scaleName sensorName : String) (sensorIndex : ℕ) : PlotSeries :=
  { label := some ("Low " ++ sensorName), scale := some scaleName,
    stroke := colors.get? sensorIndex, width := some (1 / 10), dash := none,
    spanGaps := false }

/-- The High series pushed for one sensor when summaries are shown. -/
def highSeriesFor (scaleName sensorName : String) (sensorIndex : ℕ) : PlotSeries :=
  { label := some ("High " ++ sensorName), scale := some scaleName,
    stroke := colors.get? sensorIndex, width := some (1 / 10), dash := none,
    spanGaps := false }

/-- The main series pushed for one sensor. -/
def mainSeriesFor (scaleName sensorName : String) (sensorIndex total : ℕ) : PlotSeries :=
  { label := some sensorName, scale := some scaleName, stroke := colors.get? sensorIndex,
    width := some 2, dash := some ((total - sensorIndex + 1) * 3), spanGaps := true }

/-- The band pushed for one sensor when summaries are shown, referencing the
High and Low series indices. -/
def bandFor (sensorIndex : ℕ) : PlotBand :=
  { showFlag := true, series := [1 + sensorIndex * 3 + 1, 1 + sensorIndex * 3],
    fill := "rgba(0, 0, 0, .07)" }

/-- The body of the reduce in seriesAndBandsFromSensorsAndScaleName from
spa.js, traversing the sensors with the running sensorIndex and pushing onto
the series and bands accumulators. -/
def seriesAndBandsGo (sensorConfig : String → Option String) (summaries : Bool)
    (scaleName : String) (total : ℕ) :
    List String → ℕ → List PlotSeries × List PlotBand → List PlotSeries × List PlotBand
  | [], _, acc => acc
  | v :: rest, sensorIndex, (seriesAcc, bandsAcc) =>
    let sensorName := (sensorConfig v).getD v
    let seriesAcc1 :=
      if summaries then
        seriesAcc ++ [lowSeriesFor scaleName sensorName sensorIndex,
                      highSeriesFor scaleName sensorName sensorIndex]
      else seriesAcc
    let bandsAcc1 := if summaries then bandsAcc ++ [bandFor sensorIndex] else bandsAcc
    seriesAndBandsGo sensorConfig summaries scaleName total rest (sensorIndex + 1)
      (seriesAcc1 ++ [mainSeriesFor scaleName sensorName sensorIndex total], bandsAcc1)

/-- seriesAndBandsFromSensorsAndScaleName from spa.js: the reduce over the
sensors, starting from one leading empty series object and no bands. -/
def seriesAndBandsFromSensorsAndScaleName (sensors : List String)
    (sensorConfig : String → Option String) (summaries : Bool) (scaleName : String) :
    List PlotSeries × List PlotBand :=
  seriesAndBandsGo sensorConfig summaries scaleName sensors.length sensors 0
    ([emptySeries], [])

/-- Closed form of the series entries the reduce appends after the
accumulator it was given. -/
def sbSeriesGen (sensorConfig : String → Option String) (summaries : Bool)
    (scaleName : String) (total : ℕ) : List String → ℕ → List PlotSeries
  | [], _ => []
  | v :: rest, i =>
    let name := (sensorConfig v).getD v
    (if summaries then [lowSeriesFor scaleName name i, highSeriesFor scaleName name i]
     else [])
      ++ mainSeriesFor scaleName name i total
        :: sbSeriesGen sensorConfig summaries scaleName total rest (i + 1)

/-- Closed form of the bands the reduce appends after the accumulator it was
given. -/
def sbBandsGen (summaries : Bool) : List String → ℕ → List PlotBand
  | [], _ => []
  | _ :: rest, i => (if summaries then [bandFor i] else []) ++ sbBandsGen summaries rest (i + 1)

/-- One sensor reading, per the spec data model: sensor id, measurement
type, whole-second timestamp, and a possibly-null value; real values are
modelled as rationals. -/
structure Reading where
  sensor_id : String
  measurement_type : String
  timestamp : ℕ
  value : Option ℚ
deriving DecidableEq

/-- Timestamp order on readings. -/
def tsLe (a b : Reading) : Prop := a.timestamp ≤ b.timestamp

/-- Strict timestamp order on readings. -/
def tsLt (a b : Reading) : Prop := a.timestamp < b.timestamp

instance : DecidableRel tsLe := fun a b => Nat.decLe a.timestamp b.timestamp

instance : DecidableRel tsLt := fun a b => Nat.decLt a.timestamp b.timestamp

instance : IsTotal Reading tsLe := ⟨fun a b => Nat.le_total a.timestamp b.timestamp⟩

instance : IsTrans Reading tsLe := ⟨fun _ _ _ h1 h2 => Nat.le_trans h1 h2⟩

/-- Modelled from the spec: the Recent Buffer's append (the buffer service
itself is absent from the sources; only its behaviour is specified).  A
reading is inserted at its sorted position by timestamp, so an out-of-order
arrival is not simply appended. -/
def bufferAppend (buf : List Reading) (r : Reading) : List Reading :=
  List.orderedInsert tsLe r buf

/-- Modelled from the spec: the buffer contents after appending the given
readings one at a time, in arrival order, to an empty buffer. -/
def bufferOfList (rs : List Reading) : List Reading :=
  rs.foldl bufferAppend []

/-- Modelled from the spec: Recent Buffer query, returning the retained
readings whose timestamps intersect the half-open range. -/
def bufferQuery (buf : List Reading) (start finish : ℕ) : List Reading :=
  buf.filter (fun r => decide (start ≤ r.timestamp) && decide (r.timestamp < finish))

/-- Modelled from the spec: the values the Aggregation Engine reduces for
one bucket are those of the readings whose timestamp falls in the bucket's
half-open interval, null values excluded. -/
def bucketValues (rs : List Reading) (bstart bend : ℕ) : List ℚ :=
  (rs.filter (fun r => decide (bstart ≤ r.timestamp) && decide (r.timestamp < bend))).filterMap
    Reading.value

/-- One aggregation bucket, per the spec data model; the end bound is named
stop. -/
structure Bucket where
  start : ℕ
  stop : ℕ
  low : ℚ
  high : ℚ
  average : ℚ
  count : ℕ
deriving DecidableEq

/-- Modelled from the spec: the Aggregation Engine's reduction of one
bucket (the engine itself is absent from the sources): low, high and
average of the in-range values, none (a gap) when the bucket holds no
values. -/
def bucketFor (rs : List Reading) (bstart bend : ℕ) : Option Bucket :=
  match bucketValues rs bstart bend with
  | [] => none
  | v :: rest => some
      { start := bstart, stop := bend,
        low := rest.foldl min v, high := rest.foldl max v,
        average := (v :: rest).sum / (((v :: rest).length : ℚ)),
        count := (v :: rest).length }

/-- Modelled from the spec: quantization of a timestamp to the enclosing
window, the minute for raw queries. -/
def quantizeTimestamp (w t : ℕ) : ℕ := w * (t / w)

/-- Modelled from the spec: a raw (non-summarized) query over the buffer
(the query service is absent from the sources): the in-range readings in
timestamp order, each presented at its quantized timestamp with its value;
the stored readings are not modified. -/
def rawQuery (rs : List Reading) (start finish w : ℕ) : List (ℕ × Option ℚ) :=
  (bufferQuery (bufferOfList rs) start finish).map
    (fun r => (quantizeTimestamp w r.timestamp, r.value))

/-- The error kinds the Query Service reports for malformed input. -/
inductive QueryError where
  | invalidRange
  | unknownMeasurementType
  | badTimestamp
deriving DecidableEq

/-- A validated query, per the spec; the end bound is named stop. -/
structure ParsedQuery where
  start : ℕ
  stop : ℕ
  measurementType : String
deriving DecidableEq

/-- Modelled from the spec: parsing of an epoch-second bound (the query
service is absent from the sources); a bound must be a non-empty digit
string. -/
def parseEpoch (s : List Char) : Option ℕ :=
  if s ≠ [] ∧ s.all Char.isDigit then some (digitsToNat s) else none

/-- Modelled from the spec: Query Service input validation: start and end
must parse as epoch seconds, the measurement type must be recognized, and
start must be below end; anything else is rejected with a client error
before any work is done. -/
def parseQuery (startS endS : List Char) (mt : String) : Except QueryError ParsedQuery :=
  match parseEpoch startS, parseEpoch endS with
  | some s, some e =>
    if mt ∈ recognizedMeasurementTypes then
      if s < e then .ok ⟨s, e, mt⟩ else .error .invalidRange
    else .error .unknownMeasurementType
  | _, _ => .error .badTimestamp

/-- Lexicographic code-unit comparison, the default JS Array sort order on
strings. -/
def lexLe : List Char → List Char → Bool
  | [], _ => true
  | _ :: _, [] => false
  | a :: as, b :: bs => if a < b then true else if b < a then false else lexLe as bs

/-- A JS object read on an object represented as an association list. -/
def assocGet (contents : List (List Char × List Char)) (k : List Char) : Option (List Char) :=
  match contents with
  | [] => none
  | (k0, v0) :: rest => if k = k0 then some v0 else assocGet rest k

/-- serializeHash from spa.js over hash contents represented as an
association list with distinct keys: the keys are sorted with the default
JS string sort, and the key=value pairs are joined with ampersands after a
leading hash character. -/
def serializeHash (contents : List (List Char × List Char)) : List Char :=
  let keys := (contents.map Prod.fst).mergeSort lexLe
  '#' :: List.intercalate ['&']
    (keys.map (fun k => k ++ '=' :: ((assocGet contents k).getD [])))

/-- The loop body of parseHash from spa.js: split one part at the equals
signs, destructure into key and value (the value undefined when missing),
and assign key to value in the result object. -/
def parseHashStep (acc : List Char → Option (List Char)) (part : List Char) :
    List Char → Option (List Char) :=
  let comps := part.splitOn '='
  let key := comps.getD 0 []
  let value := comps.get? 1
  fun q => if q = key then value else acc q

/-- parseHash from spa.js: drop the leading character, split on ampersands,
and assign each part's key to its value in a fresh object, later parts
overwriting earlier ones; the object is represented by its read function. -/
def parseHash (hash : List Char) : List Char → Option (List Char) :=
  ((hash.drop 1).splitOn '&').foldl parseHashStep (fun _ => none)

theorem minMaxStep_some (m M v : ℚ) :
    minMaxStep (some m, some M) v = (some (min m v), some (max M v)) := by
  unfold minMaxStep
  by_cases h1 : v < m
  · by_cases h2 : v ≥ M
    · simp [h1, h2, min_eq_right h1.le, max_eq_right h2]
    · simp [h1, h2, min_eq_right h1.le, max_eq_left (le_of_not_le h2)]
  · by_cases h2 : v ≥ M
    · simp [h1, h2, min_eq_left (le_of_not_lt h1), max_eq_right h2]
    · simp [h1, h2, min_eq_left (le_of_not_lt h1), max_eq_left (le_of_not_le h2)]

theorem foldl_minMaxStep_some (l : List ℚ) : ∀ m M : ℚ,
    l.foldl minMaxStep (some m, some M) = (some (l.foldl min m), some (l.foldl max M)) := by
  induction l with
  | nil => intro m M; rfl
  | cons x xs ih => intro m M; simp [List.foldl_cons, minMaxStep_some, ih]

theorem foldl_min_mem (l : List ℚ) : ∀ a : ℚ, l.foldl min a ∈ a :: l := by
  induction l with
  | nil => intro a; exact List.mem_cons_self a []
  | cons x xs ih =>
    intro a
    have h := ih (min a x)
    rw [List.foldl_cons]
    rcases List.mem_cons.mp h with h1 | h1
    · rcases min_choice a x with hc | hc
      · rw [h1, hc]; exact List.mem_cons_self _ _
      · rw [h1, hc]; exact List.mem_cons_of_mem _ (List.mem_cons_self _ _)
    · exact List.mem_cons_of_mem _ (List.mem_cons_of_mem _ h1)

theorem foldl_max_mem (l : List ℚ) : ∀ a : ℚ, l.foldl max a ∈ a :: l := by
  induction l with
  | nil => intro a; exact List.mem_cons_self a []
  | cons x xs ih =>
    intro a
    have h := ih (max a x)
    rw [List.foldl_cons]
    rcases List.mem_cons.mp h with h1 | h1
    · rcases max_choice a x with hc | hc
      · rw [h1, hc]; exact List.mem_cons_self _ _
      · rw [h1, hc]; exact List.mem_cons_of_mem _ (List.mem_cons_self _ _)
    · exact List.mem_cons_of_mem _ (List.mem_cons_of_mem _ h1)

theorem foldl_min_le (l : List ℚ) : ∀ a : ℚ, ∀ x ∈ a :: l, l.foldl min a ≤ x := by
  induction l with
  | nil =>
    intro a x hx
    rcases List.mem_cons.mp hx with h | h
    · subst h; exact le_refl _
    · cases h
  | cons y ys ih =>
    intro a x hx
    rw [List.foldl_cons]
    have hmin : ys.foldl min (min a y) ≤ min a y := ih (min a y) _ (List.mem_cons_self _ _)
    rcases List.mem_cons.mp hx with h | h
    · subst h; exact le_trans hmin (min_le_left _ _)
    · rcases List.mem_cons.mp h with h1 | h1
      · subst h1; exact le_trans hmin (min_le_right _ _)
      · exact ih (min a y) x (List.mem_cons_of_mem _ h1)

theorem le_foldl_max (l : List ℚ) : ∀ a : ℚ, ∀ x ∈ a :: l, x ≤ l.foldl max a := by
  induction l with
  | nil =>
    intro a x hx
    rcases List.mem_cons.mp hx with h | h
    · subst h; exact le_refl _
    · cases h
  | cons y ys ih =>
    intro a x hx
    rw [List.foldl_cons]
    have hmax : max a y ≤ ys.foldl max (max a y) := ih (max a y) _ (List.mem_cons_self _ _)
    rcases List.mem_cons.mp hx with h | h
    · subst h; exact le_trans (le_max_left _ _) hmax
    · rcases List.mem_cons.mp h with h1 | h1
      · subst h1; exact le_trans (le_max_right _ _) hmax
      · exact ih (max a y) x (List.mem_cons_of_mem _ h1)

/-- C1: the bucket window width is a pure function of the query span,
computed once from the difference of the epoch-second bounds: 60 s below one
day, 3600 s below seven days, 10800 s below 32 days, 86400 s otherwise; a
12-hour span gives 60 s, a 3-day span 3600 s, a 40-day span 86400 s. -/
theorem c1_window_width (start finish : ℤ) (h : start < finish) :
    (finish - start < 86400 → windowSecsForSpan (finish - start) = 60) ∧
    (86400 ≤ finish - start ∧ finish - start < 7 * 86400 →
      windowSecsForSpan (finish - start) = 3600) ∧
    (7 * 86400 ≤ finish - start ∧ finish - start < 32 * 86400 →
      windowSecsForSpan (finish - start) = 10800) ∧
    (32 * 86400 ≤ finish - start → windowSecsForSpan (finish - start) = 86400) ∧
    windowSecsForSpan (12 * 3600) = 60 ∧
    windowSecsForSpan (3 * 86400) = 3600 ∧
    windowSecsForSpan (40 * 86400) = 86400 := by
  refine ⟨?_, ?_, ?_, ?_, by decide, by decide, by decide⟩
  · intro h1
    rw [windowSecsForSpan, if_pos h1]
  · rintro ⟨h1, h2⟩
    rw [windowSecsForSpan, if_neg (by omega), if_pos (by omega)]
  · rintro ⟨h1, h2⟩
    rw [windowSecsForSpan, if_neg (by omega), if_neg (by omega), if_pos (by omega)]
  · intro h1
    rw [windowSecsForSpan, if_neg (by omega), if_neg (by omega), if_neg (by omega)]

theorem c1_window_width_witness : windowSecsForSpan (43200 - 0) = 60 :=
  (c1_window_width 0 43200 (by decide)).1 (by decide)

/-- C9: on a period string made of a numeric prefix and a final unit
character, periodToMillis returns the prefix times 3600000 for unit h and
the prefix times 86400000 for unit d; on any string whose last character is
neither h nor d it throws the Unknown-unit error and produces no value. -/
theorem c9_periodToMillis (ds : List Char) (u : Char) (s : List Char)
    (hne : ds ≠ []) (hdig : ds.all Char.isDigit) :
    periodToMillis (ds ++ ['h']) = .ok (some ((digitsToNat ds : ℤ) * 3600000)) ∧
    periodToMillis (ds ++ ['d']) = .ok (some ((digitsToNat ds : ℤ) * 86400000)) ∧
    (u ≠ 'h' → u ≠ 'd' →
      periodToMillis (s ++ [u]) = .error ("Unknown unit: ".toList ++ [u])) := by
  have hnum : jsStringToNumber ds = some (digitsToNat ds) := by
    simp [jsStringToNumber, hne, hdig]
  refine ⟨?_, ?_, ?_⟩
  · simp [periodToMillis, List.getLast?_concat, List.dropLast_concat, hnum]
  · simp [periodToMillis, List.getLast?_concat, List.dropLast_concat, hnum]
  · intro hu1 hu2
    simp [periodToMillis, List.getLast?_concat, List.dropLast_concat, hu1, hu2]

theorem c9_periodToMillis_witness :
    periodToMillis (['2', '4'] ++ ['h']) =
      .ok (some ((digitsToNat ['2', '4'] : ℤ) * 3600000)) :=
  (c9_periodToMillis ['2', '4'] 'x' [] (by decide) (by decide)).1

/-- C10: minMax over a two-dimensional array of numbers returns null min and
max when no element lies at a row index at least startDim, and otherwise the
least and greatest scanned elements, both of which occur in the scanned
region, with min at most max. -/
theorem c10_minMax_correct (A : List (List ℚ)) (d : ℕ) :
    ((A.drop d).flatten = [] → minMax A d = (none, none)) ∧
    ((A.drop d).flatten ≠ [] → ∃ lo hi, minMax A d = (some lo, some hi) ∧
      lo ∈ (A.drop d).flatten ∧ hi ∈ (A.drop d).flatten ∧ lo ≤ hi ∧
      ∀ v ∈ (A.drop d).flatten, lo ≤ v ∧ v ≤ hi) := by
  have hflat : minMax A d = (A.drop d).flatten.foldl minMaxStep (none, none) := by
    rw [minMax, List.foldl_flatten]
  constructor
  · intro hempty
    rw [hflat, hempty]
    rfl
  · intro hne
    rcases hx : (A.drop d).flatten with _ | ⟨v, rest⟩
    · exact absurd hx hne
    refine ⟨rest.foldl min v, rest.foldl max v, ?_, ?_, ?_, ?_, ?_⟩
    · rw [hflat, hx, List.foldl_cons]
      have hstep : minMaxStep (none, none) v = (some v, some v) := rfl
      rw [hstep, foldl_minMaxStep_some]
    · exact foldl_min_mem rest v
    · exact foldl_max_mem rest v
    · exact le_trans (foldl_min_le rest v v (List.mem_cons_self _ _))
        (le_foldl_max rest v v (List.mem_cons_self _ _))
    · intro w hw
      exact ⟨foldl_min_le rest v w hw, le_foldl_max rest v w hw⟩

theorem c10_minMax_correct_witness :
    ∃ lo hi, minMax [[(1 : ℚ), 3, 2]] 0 = (some lo, some hi) ∧
      lo ∈ ([[(1 : ℚ), 3, 2]].drop 0).flatten ∧
      hi ∈ ([[(1 : ℚ), 3, 2]].drop 0).flatten ∧ lo ≤ hi ∧
      ∀ v ∈ ([[(1 : ℚ), 3, 2]].drop 0).flatten, lo ≤ v ∧ v ≤ hi :=
  (c10_minMax_correct [[(1 : ℚ), 3, 2]] 0).2 (by decide)

/-- C4: for each of the five recognized measurement types the dispatch yields
a defined scale (with hooks only where applicable), so the assert-false
fall-through is unreachable; any other measurement type is rejected with no
result. -/
theorem c4_scale_dispatch_total (mt : String) (values : List (List ℚ)) :
    (mt ∈ recognizedMeasurementTypes →
      ∃ s h, scaleAndHooksForMeasurementTypeAndValues mt values = some (s, h)) ∧
    (mt ∉ recognizedMeasurementTypes →
      scaleAndHooksForMeasurementTypeAndValues mt values = none) := by
  constructor
  · intro hmem
    simp only [recognizedMeasurementTypes, List.mem_cons, List.not_mem_nil, or_false] at hmem
    rcases hmem with h | h | h | h | h <;> subst h <;>
      simp [scaleAndHooksForMeasurementTypeAndValues]
  · intro hmem
    simp only [recognizedMeasurementTypes, List.mem_cons, List.not_mem_nil, or_false] at hmem
    push_neg at hmem
    obtain ⟨h1, h2, h3, h4, h5⟩ := hmem
    simp [scaleAndHooksForMeasurementTypeAndValues, h1, h2, h3, h4, h5]

theorem c4_scale_dispatch_total_witness :
    (∃ s h, scaleAndHooksForMeasurementTypeAndValues "temperature" [] = some (s, h)) ∧
    scaleAndHooksForMeasurementTypeAndValues "speed" [] = none :=
  ⟨(c4_scale_dispatch_total "temperature" []).1 (by decide),
   (c4_scale_dispatch_total "speed" []).2 (by decide)⟩

theorem seriesAndBandsGo_eq (cfg : String → Option String) (summaries : Bool)
    (scaleName : String) (total : ℕ) :
    ∀ (sensors : List String) (i : ℕ) (sAcc : List PlotSeries) (bAcc : List PlotBand),
    seriesAndBandsGo cfg summaries scaleName total sensors i (sAcc, bAcc) =
      (sAcc ++ sbSeriesGen cfg summaries scaleName total sensors i,
       bAcc ++ sbBandsGen summaries sensors i) := by
  intro sensors
  induction sensors with
  | nil => intro i s b; simp [seriesAndBandsGo, sbSeriesGen, sbBandsGen]
  | cons v rest ih =>
    intro i s b
    simp only [seriesAndBandsGo, sbSeriesGen, sbBandsGen, ih]
    cases summaries <;> simp

theorem sbSeriesGen_length (cfg : String → Option String) (scaleName : String) (total : ℕ) :
    ∀ (sensors : List String) (i : ℕ),
    (sbSeriesGen cfg true scaleName total sensors i).length = 3 * sensors.length ∧
    (sbSeriesGen cfg false scaleName total sensors i).length = sensors.length := by
  intro sensors
  induction sensors with
  | nil => intro i; simp [sbSeriesGen]
  | cons v rest ih =>
    intro i
    have h := ih (i + 1)
    constructor
    · simp only [sbSeriesGen, List.length_cons, List.length_append, if_pos]
      simp [h.1]
      ring
    · simp only [sbSeriesGen]
      simp [h.2]

theorem sbBandsGen_length : ∀ (sensors : List String) (i : ℕ),
    (sbBandsGen true sensors i).length = sensors.length := by
  intro sensors
  induction sensors with
  | nil => intro i; rfl
  | cons v rest ih => intro i; simp [sbBandsGen, ih (i + 1)]

theorem sbSeriesGen_get (cfg : String → Option String) (scaleName : String) (total : ℕ) :
    ∀ (sensors : List String) (j i : ℕ) (v : String), sensors.get? j = some v →
    (sbSeriesGen cfg true scaleName total sensors i).get? (3 * j)
        = some (lowSeriesFor scaleName ((cfg v).getD v) (i + j)) ∧
    (sbSeriesGen cfg true scaleName total sensors i).get? (3 * j + 1)
        = some (highSeriesFor scaleName ((cfg v).getD v) (i + j)) ∧
    (sbSeriesGen cfg true scaleName total sensors i).get? (3 * j + 2)
        = some (mainSeriesFor scaleName ((cfg v).getD v) (i + j) total) := by
  intro sensors
  induction sensors with
  | nil => intro j i v hv; simp at hv
  | cons w rest ih =>
    intro j i v hv
    cases j with
    | zero =>
      simp only [List.get?_cons_zero, Option.some.injEq] at hv
      subst hv
      simp [sbSeriesGen]
    | succ j0 =>
      simp only [List.get?_cons_succ] at hv
      have h := ih j0 (i + 1) v hv
      have e0 : 3 * (j0 + 1) = 3 * j0 + 1 + 1 + 1 := by ring
      have e1 : 3 * (j0 + 1) + 1 = (3 * j0 + 1) + 1 + 1 + 1 := by ring
      have e2 : 3 * (j0 + 1) + 2 = (3 * j0 + 2) + 1 + 1 + 1 := by ring
      have ha : i + 1 + j0 = i + (j0 + 1) := by ring
      rw [ha] at h
      refine ⟨?_, ?_, ?_⟩
      · rw [e0]; simp only [sbSeriesGen]; simpa using h.1
      · rw [e1]; simp only [sbSeriesGen]; simpa using h.2.1
      · rw [e2]; simp only [sbSeriesGen]; simpa using h.2.2

theorem sbBandsGen_get : ∀ (sensors : List String) (j i : ℕ), j < sensors.length →
    (sbBandsGen true sensors i).get? j = some (bandFor (i + j)) := by
  intro sensors
  induction sensors with
  | nil => intro j i hj; simp at hj
  | cons w rest ih =>
    intro j i hj
    cases j with
    | zero => simp [sbBandsGen]
    | succ j0 =>
      have h := ih j0 (i + 1) (by simpa using Nat.lt_of_succ_lt_succ hj)
      have ha : i + 1 + j0 = i + (j0 + 1) := by ring
      rw [ha] at h
      simp only [sbBandsGen]
      simpa using h

/-- C5: with summaries requested the chart construction yields 3n+1 series
(the leading empty entry, then for sensor i the Low series at index 3i+1,
the High series at 3i+2 and the main series at 3i+3) and exactly n bands,
band i referencing series indices [3i+2, 3i+1]; without summaries it yields
n+1 series, one per sensor plus the leading entry. -/
theorem c5_series_and_bands (sensors : List String) (cfg : String → Option String)
    (scaleName : String) :
    ((seriesAndBandsFromSensorsAndScaleName sensors cfg true scaleName).1.length
        = 3 * sensors.length + 1) ∧
    ((seriesAndBandsFromSensorsAndScaleName sensors cfg true scaleName).2.length
        = sensors.length) ∧
    (∀ i v, sensors.get? i = some v →
      ((seriesAndBandsFromSensorsAndScaleName sensors cfg true scaleName).1.get? (3 * i + 1)
          = some (lowSeriesFor scaleName ((cfg v).getD v) i)) ∧
      ((seriesAndBandsFromSensorsAndScaleName sensors cfg true scaleName).1.get? (3 * i + 2)
          = some (highSeriesFor scaleName ((cfg v).getD v) i)) ∧
      ((seriesAndBandsFromSensorsAndScaleName sensors cfg true scaleName).1.get? (3 * i + 3)
          = some (mainSeriesFor scaleName ((cfg v).getD v) i sensors.length)) ∧
      ((seriesAndBandsFromSensorsAndScaleName sensors cfg true scaleName).2.get? i
          = some (bandFor i)) ∧
      (bandFor i).series = [3 * i + 2, 3 * i + 1]) ∧
    ((seriesAndBandsFromSensorsAndScaleName sensors cfg false scaleName).1.length
        = sensors.length + 1) := by
  have hT := seriesAndBandsGo_eq cfg true scaleName sensors.length sensors 0 [emptySeries] []
  have hF := seriesAndBandsGo_eq cfg false scaleName sensors.length sensors 0 [emptySeries] []
  refine ⟨?_, ?_, ?_, ?_⟩
  · rw [seriesAndBandsFromSensorsAndScaleName, hT]
    simp [(sbSeriesGen_length cfg scaleName sensors.length sensors 0).1]
  · rw [seriesAndBandsFromSensorsAndScaleName, hT]
    simp [sbBandsGen_length sensors 0]
  · intro i v hv
    have hg := sbSeriesGen_get cfg scaleName sensors.length sensors i 0 v hv
    rw [Nat.zero_add] at hg
    have hb := sbBandsGen_get sensors i 0 (by
      have := List.get?_eq_some.mp hv
      exact this.1)
    rw [Nat.zero_add] at hb
    have hgo : (seriesAndBandsFromSensorsAndScaleName sensors cfg true scaleName).1
        = emptySeries :: sbSeriesGen cfg true scaleName sensors.length sensors 0 := by
      rw [seriesAndBandsFromSensorsAndScaleName, hT]; rfl
    have hgob : (seriesAndBandsFromSensorsAndScaleName sensors cfg true scaleName).2
        = sbBandsGen true sensors 0 := by
      rw [seriesAndBandsFromSensorsAndScaleName, hT]; rfl
    refine ⟨?_, ?_, ?_, ?_, ?_⟩
    · rw [hgo, List.get?_cons_succ]; exact hg.1
    · rw [hgo]
      have e : 3 * i + 2 = (3 * i + 1) + 1 := by ring
      rw [e, List.get?_cons_succ]
      exact hg.2.1
    · rw [hgo]
      have e : 3 * i + 3 = (3 * i + 2) + 1 := by ring
      rw [e, List.get?_cons_succ]
      exact hg.2.2
    · rw [hgob]; exact hb
    · simp only [bandFor, List.cons.injEq, and_true]
      omega
  · rw [seriesAndBandsFromSensorsAndScaleName, hF]
    simp [(sbSeriesGen_length cfg scaleName sensors.length sensors 0).2]

theorem c5_series_and_bands_witness :
    ((seriesAndBandsFromSensorsAndScaleName ["a", "b"] (fun _ => none) true "temperature").1.length
        = 7) ∧
    ((seriesAndBandsFromSensorsAndScaleName ["a", "b"] (fun _ => none) true "temperature").2.get? 1
        = some (bandFor 1)) ∧
    (bandFor 1).series = [5, 4] := by
  have h := c5_series_and_bands ["a", "b"] (fun _ => none) "temperature"
  have h1 := h.2.2.1 1 "b" (by rfl)
  exact ⟨h.1, h1.2.2.2.1, h1.2.2.2.2⟩

theorem bufferOfList_sorted_aux (rs : List Reading) :
    ∀ buf : List Reading, List.Sorted tsLe buf → List.Sorted tsLe (rs.foldl bufferAppend buf) := by
  induction rs with
  | nil => intro buf h; exact h
  | cons r rest ih =>
    intro buf h
    rw [List.foldl_cons]
    exact ih _ (List.Sorted.orderedInsert r buf h)

theorem bufferOfList_perm (rs : List Reading) :
    ∀ buf : List Reading, (rs.foldl bufferAppend buf).Perm (buf ++ rs) := by
  induction rs with
  | nil => intro buf; simp
  | cons r rest ih =>
    intro buf
    rw [List.foldl_cons]
    refine (ih (bufferAppend buf r)).trans ?_
    refine (List.Perm.append_right rest (List.perm_orderedInsert tsLe r buf)).trans ?_
    simpa using (List.perm_middle).symm

/-- C2 counterexample: two readings sharing a timestamp are both retained
and both returned by a covering query, so the result cannot be strictly
sorted by timestamp. -/
theorem c2_strict_counterexample :
    ((bufferQuery (bufferOfList
        [⟨"a", "temperature", 5, none⟩, ⟨"b", "temperature", 5, none⟩]) 0 10).length = 2) ∧
    ¬ (bufferQuery (bufferOfList
        [⟨"a", "temperature", 5, none⟩, ⟨"b", "temperature", 5, none⟩]) 0 10).Pairwise tsLt := by
  decide

/-- C2 amended: a query over appended readings returns exactly the retained
readings whose timestamps intersect the range, sorted non-decreasingly by
timestamp; the order is strict when the appended timestamps are pairwise
distinct. -/
theorem c2_buffer_query_sorted (rs : List Reading) (start finish : ℕ) :
    List.Sorted tsLe (bufferQuery (bufferOfList rs) start finish) ∧
    (bufferQuery (bufferOfList rs) start finish).Perm
      (rs.filter (fun r => decide (start ≤ r.timestamp) && decide (r.timestamp < finish))) ∧
    ((rs.map Reading.timestamp).Nodup →
      List.Sorted tsLt (bufferQuery (bufferOfList rs) start finish)) := by
  have hsorted : List.Sorted tsLe (bufferOfList rs) :=
    bufferOfList_sorted_aux rs [] List.sorted_nil
  have hperm : (bufferOfList rs).Perm rs := by
    simpa using bufferOfList_perm rs []
  have hq : List.Sorted tsLe (bufferQuery (bufferOfList rs) start finish) :=
    List.Sorted.filter _ hsorted
  refine ⟨hq, hperm.filter _, ?_⟩
  intro hnd
  have hnd2 : ((bufferOfList rs).map Reading.timestamp).Nodup :=
    ((hperm.map Reading.timestamp).nodup_iff).mpr hnd
  have hsub : (bufferQuery (bufferOfList rs) start finish).Sublist (bufferOfList rs) :=
    List.filter_sublist _
  have hnd3 : ((bufferQuery (bufferOfList rs) start finish).map Reading.timestamp).Nodup :=
    List.Nodup.sublist (List.Sublist.map Reading.timestamp hsub) hnd2
  have hpne : (bufferQuery (bufferOfList rs) start finish).Pairwise
      (fun a b => a.timestamp ≠ b.timestamp) := List.pairwise_map.mp hnd3
  exact (List.Pairwise.and hq hpne).imp (fun h => lt_of_le_of_ne h.1 h.2)

theorem c2_buffer_query_sorted_witness :
    List.Sorted tsLt (bufferQuery (bufferOfList
      [⟨"a", "temperature", 3, none⟩, ⟨"b", "temperature", 1, none⟩]) 0 10) :=
  (c2_buffer_query_sorted [⟨"a", "temperature", 3, none⟩, ⟨"b", "temperature", 1, none⟩]
    0 10).2.2 (by decide)

theorem foldl_min_mul_le_sum (l : List ℚ) : ∀ a : ℚ,
    l.foldl min a * ((l.length : ℚ) + 1) ≤ a + l.sum := by
  induction l with
  | nil => intro a; simp
  | cons x xs ih =>
    intro a
    rw [List.foldl_cons]
    have h1 := ih (min a x)
    have h2 : xs.foldl min (min a x) ≤ a :=
      le_trans (foldl_min_le xs (min a x) _ (List.mem_cons_self _ _)) (min_le_left _ _)
    have h3 : min a x ≤ x := min_le_right a x
    have hexp : xs.foldl min (min a x) * ((xs.length : ℚ) + 1 + 1)
        = xs.foldl min (min a x) * ((xs.length : ℚ) + 1) + xs.foldl min (min a x) := by ring
    simp only [List.sum_cons, List.length_cons]
    push_cast
    linarith [h1, h2, h3, hexp]

theorem sum_le_foldl_max (l : List ℚ) : ∀ a : ℚ,
    a + l.sum ≤ l.foldl max a * ((l.length : ℚ) + 1) := by
  induction l with
  | nil => intro a; simp
  | cons x xs ih =>
    intro a
    rw [List.foldl_cons]
    have h1 := ih (max a x)
    have h2 : a ≤ xs.foldl max (max a x) :=
      le_trans (le_max_left _ _) (le_foldl_max xs (max a x) _ (List.mem_cons_self _ _))
    have h3 : x ≤ max a x := le_max_right a x
    have hexp : xs.foldl max (max a x) * ((xs.length : ℚ) + 1 + 1)
        = xs.foldl max (max a x) * ((xs.length : ℚ) + 1) + xs.foldl max (max a x) := by ring
    simp only [List.sum_cons, List.length_cons]
    push_cast
    linarith [h1, h2, h3, hexp]

/-- C3: a non-empty bucket satisfies low at most average at most high with a
positive count, its statistics depend only on the readings inside the
bucket's interval, and an empty bucket is a gap (none), never a zero-valued
row. -/
theorem c3_bucket_bounds (rs : List Reading) (bstart bend : ℕ) :
    (∀ b, bucketFor rs bstart bend = some b →
      b.low ≤ b.average ∧ b.average ≤ b.high ∧ 0 < b.count) ∧
    (bucketFor rs bstart bend = none ↔ bucketValues rs bstart bend = []) ∧
    bucketFor rs bstart bend
      = bucketFor (rs.filter
          (fun r => decide (bstart ≤ r.timestamp) && decide (r.timestamp < bend)))
        bstart bend := by
  have hfilter : bucketValues
      (rs.filter (fun r => decide (bstart ≤ r.timestamp) && decide (r.timestamp < bend)))
      bstart bend = bucketValues rs bstart bend := by
    simp [bucketValues, List.filter_filter]
  refine ⟨?_, ?_, ?_⟩
  · intro b hb
    rcases hv : bucketValues rs bstart bend with _ | ⟨v, rest⟩
    · simp [bucketFor, hv] at hb
    · simp only [bucketFor, hv] at hb
      injection hb with hb2
      subst hb2
      have hpos : (0 : ℚ) < ((v :: rest).length : ℚ) := by
        push_cast [List.length_cons]
        positivity
      refine ⟨?_, ?_, Nat.succ_pos rest.length⟩
      · show rest.foldl min v ≤ (v :: rest).sum / ((v :: rest).length : ℚ)
        rw [le_div_iff hpos]
        calc rest.foldl min v * ((v :: rest).length : ℚ)
            = rest.foldl min v * ((rest.length : ℚ) + 1) := by
              push_cast [List.length_cons]; ring
          _ ≤ v + rest.sum := foldl_min_mul_le_sum rest v
          _ = (v :: rest).sum := (List.sum_cons).symm
      · show (v :: rest).sum / ((v :: rest).length : ℚ) ≤ rest.foldl max v
        rw [div_le_iff hpos]
        calc (v :: rest).sum = v + rest.sum := List.sum_cons
          _ ≤ rest.foldl max v * ((rest.length : ℚ) + 1) := sum_le_foldl_max rest v
          _ = rest.foldl max v * ((v :: rest).length : ℚ) := by
              push_cast [List.length_cons]; ring
  · rcases hv : bucketValues rs bstart bend with _ | ⟨v, rest⟩
    · simp [bucketFor, hv]
    · simp [bucketFor, hv]
  · simp only [bucketFor, hfilter]

theorem c3_bucket_bounds_witness :
    ∃ b, bucketFor [⟨"a", "temperature", 5, some 1⟩, ⟨"a", "temperature", 6, some 3⟩] 0 10
        = some b ∧
      (b.low ≤ b.average ∧ b.average ≤ b.high ∧ 0 < b.count) := by
  have h := (c3_bucket_bounds
    [⟨"a", "temperature", 5, some 1⟩, ⟨"a", "temperature", 6, some 3⟩] 0 10).1
  exact ⟨_, rfl, h _ rfl⟩

/-- C6: a raw query presents each returned reading at its stored timestamp
floored to the enclosing minute while leaving the stored reading unchanged,
and the spec's three-reading scenario over a minute-aligned start yields the
three minute-quantized timestamps with their values and no gap. -/
theorem c6_raw_quantization (rs : List Reading) (start finish k : ℕ) :
    (∀ i r, (bufferQuery (bufferOfList rs) start finish).get? i = some r →
      (rawQuery rs start finish 60).get? i = some (60 * (r.timestamp / 60), r.value)) ∧
    rawQuery
        [⟨"A", "temperature", 60 * k, some 10⟩,
         ⟨"A", "temperature", 60 * k + 60, some (21 / 2)⟩,
         ⟨"A", "temperature", 60 * k + 130, some 11⟩] (60 * k) (60 * k + 200) 60
      = [(60 * k, some 10), (60 * k + 60, some (21 / 2)), (60 * k + 120, some 11)] := by
  constructor
  · intro i r hr
    simp only [rawQuery]
    rw [List.get?_map, hr]
    rfl
  · have h1 : ¬ tsLe (⟨"A", "temperature", 60 * k + 60, some (21 / 2)⟩ : Reading)
        ⟨"A", "temperature", 60 * k, some 10⟩ := by
      simp only [tsLe]; omega
    have h2 : ¬ tsLe (⟨"A", "temperature", 60 * k + 130, some 11⟩ : Reading)
        ⟨"A", "temperature", 60 * k, some 10⟩ := by
      simp only [tsLe]; omega
    have h3 : ¬ tsLe (⟨"A", "temperature", 60 * k + 130, some 11⟩ : Reading)
        ⟨"A", "temperature", 60 * k + 60, some (21 / 2)⟩ := by
      simp only [tsLe]; omega
    have hb : bufferOfList
        [⟨"A", "temperature", 60 * k, some 10⟩,
         ⟨"A", "temperature", 60 * k + 60, some (21 / 2)⟩,
         ⟨"A", "temperature", 60 * k + 130, some 11⟩]
        = [⟨"A", "temperature", 60 * k, some 10⟩,
           ⟨"A", "temperature", 60 * k + 60, some (21 / 2)⟩,
           ⟨"A", "temperature", 60 * k + 130, some 11⟩] := by
      simp [bufferOfList, bufferAppend, List.orderedInsert, h1, h2, h3]
    have c1 : (decide (60 * k ≤ 60 * k) && decide (60 * k < 60 * k + 200)) = true := by
      simp only [Bool.and_eq_true, decide_eq_true_eq]
      omega
    have c2 : (decide (60 * k ≤ 60 * k + 60) && decide (60 * k + 60 < 60 * k + 200)) = true := by
      simp only [Bool.and_eq_true, decide_eq_true_eq]
      omega
    have c3 : (decide (60 * k ≤ 60 * k + 130) && decide (60 * k + 130 < 60 * k + 200)) = true := by
      simp only [Bool.and_eq_true, decide_eq_true_eq]
      omega
    have q1 : 60 * ((60 * k) / 60) = 60 * k := by omega
    have q2 : 60 * ((60 * k + 60) / 60) = 60 * k + 60 := by omega
    have q3 : 60 * ((60 * k + 130) / 60) = 60 * k + 120 := by omega
    simp [rawQuery, bufferQuery, hb, List.filter_cons, c1, c2, c3, quantizeTimestamp,
      q1, q2, q3]
    omega

theorem c6_raw_quantization_witness :
    (rawQuery [⟨"A", "temperature", 130, some 1⟩] 0 200 60).get? 0
      = some (60 * (130 / 60), some 1) :=
  (c6_raw_quantization [⟨"A", "temperature", 130, some 1⟩] 0 200 0).1 0
    ⟨"A", "temperature", 130, some 1⟩ (by decide)

/-- C7: the query service accepts exactly the well-formed inputs: it returns
a client error precisely when a bound fails to parse as epoch seconds, the
measurement type is unknown, or start is not below end, and an ok result
always carries parsed bounds with start below end and a recognized type, so
no partial result is ever produced for malformed input. -/
theorem c7_query_validation (ss es : List Char) (mt : String) :
    ((∃ err, parseQuery ss es mt = .error err) ↔
      (parseEpoch ss = none ∨ parseEpoch es = none ∨ mt ∉ recognizedMeasurementTypes ∨
        ∃ s e, parseEpoch ss = some s ∧ parseEpoch es = some e ∧ e ≤ s)) ∧
    (∀ q, parseQuery ss es mt = .ok q →
      parseEpoch ss = some q.start ∧ parseEpoch es = some q.stop ∧ q.start < q.stop ∧
      q.measurementType = mt ∧ mt ∈ recognizedMeasurementTypes) := by
  rcases hs : parseEpoch ss with _ | s
  · refine ⟨⟨fun _ => Or.inl rfl, fun _ => ⟨.badTimestamp, by simp [parseQuery, hs]⟩⟩, ?_⟩
    intro q hq
    simp [parseQuery, hs] at hq
  · rcases he : parseEpoch es with _ | e
    · refine ⟨⟨fun _ => Or.inr (Or.inl rfl),
        fun _ => ⟨.badTimestamp, by simp [parseQuery, hs, he]⟩⟩, ?_⟩
      intro q hq
      simp [parseQuery, hs, he] at hq
    · by_cases hm : mt ∈ recognizedMeasurementTypes
      · by_cases hlt : s < e
        · constructor
          · constructor
            · rintro ⟨err, herr⟩
              simp [parseQuery, hs, he, hm, hlt] at herr
            · rintro (h | h | h | ⟨s1, e1, hs1, he1, hle1⟩)
              · simp at h
              · simp at h
              · exact absurd hm h
              · injection hs1 with hs1
                injection he1 with he1
                subst hs1
                subst he1
                omega
          · intro q hq
            simp only [parseQuery, hs, he, if_pos hm, if_pos hlt] at hq
            injection hq with hq2
            subst hq2
            exact ⟨rfl, rfl, hlt, rfl, hm⟩
        · constructor
          · constructor
            · intro _
              exact Or.inr (Or.inr (Or.inr ⟨s, e, rfl, rfl, by omega⟩))
            · intro _
              exact ⟨.invalidRange, by simp [parseQuery, hs, he, hm, hlt]⟩
          · intro q hq
            simp [parseQuery, hs, he, hm, hlt] at hq
      · constructor
        · constructor
          · intro _
            exact Or.inr (Or.inr (Or.inl hm))
          · intro _
            exact ⟨.unknownMeasurementType, by simp [parseQuery, hs, he, hm]⟩
        · intro q hq
          simp [parseQuery, hs, he, hm] at hq

theorem c7_query_validation_witness :
    ∃ err, parseQuery ['5'] ['3'] "temperature" = .error err :=
  (c7_query_validation ['5'] ['3'] "temperature").1.mpr
    (Or.inr (Or.inr (Or.inr ⟨5, 3, by decide, by decide, by decide⟩)))

theorem splitOn_key_value (k v : List Char) (hk : '=' ∉ k) (hv : '=' ∉ v) :
    (k ++ '=' :: v).splitOn '=' = [k, v] := by
  have hpk : ∀ c ∈ k, ¬ ((c == '=') = true) := by
    intro c hc e
    have he : c = '=' := by simpa using e
    exact hk (he ▸ hc)
  have hpv : ∀ c ∈ v, ¬ ((c == '=') = true) := by
    intro c hc e
    have he : c = '=' := by simpa using e
    exact hv (he ▸ hc)
  simp only [List.splitOn]
  rw [List.splitOnP_first _ _ hpk '=' (by simp) v]
  rw [List.splitOnP_eq_single _ _ hpv]

theorem parseHashStep_key_value (acc : List Char → Option (List Char)) (k v : List Char)
    (hk : '=' ∉ k) (hv : '=' ∉ v) :
    parseHashStep acc (k ++ '=' :: v) = fun q => if q = k then some v else acc q := by
  unfold parseHashStep
  rw [splitOn_key_value k v hk hv]
  rfl

theorem parse_foldl_eval (vals : List Char → List Char) :
    ∀ (ks : List (List Char)) (acc : List Char → Option (List Char)) (q : List Char),
    (∀ k ∈ ks, '=' ∉ k ∧ '=' ∉ vals k) →
    ((ks.map (fun k => k ++ '=' :: vals k)).foldl parseHashStep acc) q
      = if q ∈ ks then some (vals q) else acc q := by
  intro ks
  induction ks with
  | nil => intro acc q hc; simp
  | cons k0 rest ih =>
    intro acc q hc
    have hk0 := hc k0 (List.mem_cons_self _ _)
    rw [List.map_cons, List.foldl_cons,
      parseHashStep_key_value acc k0 (vals k0) hk0.1 hk0.2]
    rw [ih _ q (fun k hk => hc k (List.mem_cons_of_mem _ hk))]
    by_cases hq : q ∈ rest
    · simp [hq, List.mem_cons]
    · by_cases he : q = k0
      · subst he
        simp [hq]
      · simp [hq, he, List.mem_cons]

theorem assocGet_of_mem_keys :
    ∀ (m : List (List Char × List Char)) (k : List Char), k ∈ m.map Prod.fst →
      ∃ v, assocGet m k = some v ∧ (k, v) ∈ m := by
  intro m
  induction m with
  | nil => intro k hk; simp at hk
  | cons p rest ih =>
    intro k hk
    rcases p with ⟨k0, v0⟩
    by_cases he : k = k0
    · subst he
      exact ⟨v0, by simp [assocGet], List.mem_cons_self _ _⟩
    · simp only [List.map_cons, List.mem_cons] at hk
      rcases hk with h | h
      · exact absurd h he
      · obtain ⟨v, hv, hm⟩ := ih k h
        exact ⟨v, by simp [assocGet, he, hv], List.mem_cons_of_mem _ hm⟩

theorem assocGet_eq_none :
    ∀ (m : List (List Char × List Char)) (k : List Char), k ∉ m.map Prod.fst →
      assocGet m k = none := by
  intro m
  induction m with
  | nil => intro k hk; rfl
  | cons p rest ih =>
    intro k hk
    rcases p with ⟨k0, v0⟩
    simp only [List.map_cons, List.mem_cons] at hk
    push_neg at hk
    simp [assocGet, hk.1, ih k hk.2]

/-- C8: parsing the serialized URL hash of a non-empty map with non-empty
keys and values avoiding the hash, ampersand and equals characters reads
back exactly the original map, independently of entry order (the serializer
sorts the keys). -/
theorem c8_hash_roundtrip (m : List (List Char × List Char))
    (hnd : (m.map Prod.fst).Nodup) (hne : m ≠ [])
    (hok : ∀ p ∈ m, p.1 ≠ [] ∧ p.2 ≠ [] ∧
      ∀ c ∈ p.1 ++ p.2, c ≠ '#' ∧ c ≠ '&' ∧ c ≠ '=') :
    ∀ q, parseHash (serializeHash m) q = assocGet m q := by
  intro q
  have hperm : ((m.map Prod.fst).mergeSort lexLe).Perm (m.map Prod.fst) :=
    List.mergeSort_perm _ _
  have hkeyval : ∀ k ∈ (m.map Prod.fst).mergeSort lexLe,
      ∃ v, assocGet m k = some v ∧ (k, v) ∈ m := by
    intro k hk
    exact assocGet_of_mem_keys m k (hperm.mem_iff.mp hk)
  have hchars : ∀ k ∈ (m.map Prod.fst).mergeSort lexLe,
      ('&' ∉ k ∧ '=' ∉ k) ∧
        ('&' ∉ (assocGet m k).getD [] ∧ '=' ∉ (assocGet m k).getD []) := by
    intro k hk
    obtain ⟨v, hv, hm⟩ := hkeyval k hk
    have hp := hok (k, v) hm
    have hgd : (assocGet m k).getD [] = v := by rw [hv]; rfl
    rw [hgd]
    refine ⟨⟨?_, ?_⟩, ?_, ?_⟩
    · intro hc; exact (hp.2.2 '&' (List.mem_append.mpr (Or.inl hc))).2.1 rfl
    · intro hc; exact (hp.2.2 '=' (List.mem_append.mpr (Or.inl hc))).2.2 rfl
    · intro hc; exact (hp.2.2 '&' (List.mem_append.mpr (Or.inr hc))).2.1 rfl
    · intro hc; exact (hp.2.2 '=' (List.mem_append.mpr (Or.inr hc))).2.2 rfl
  have hkne : (m.map Prod.fst).mergeSort lexLe ≠ [] := by
    intro h0
    rw [h0] at hperm
    exact hne (List.map_eq_nil_iff.mp hperm.symm.eq_nil)
  have hser : serializeHash m
      = '#' :: List.intercalate ['&']
          (((m.map Prod.fst).mergeSort lexLe).map
            (fun k => k ++ '=' :: ((assocGet m k).getD []))) := rfl
  have hx : ∀ l ∈ ((m.map Prod.fst).mergeSort lexLe).map
      (fun k => k ++ '=' :: ((assocGet m k).getD [])), '&' ∉ l := by
    intro l hl
    obtain ⟨k, hk, rfl⟩ := List.mem_map.mp hl
    intro hc
    rcases List.mem_append.mp hc with h | h
    · exact (hchars k hk).1.1 h
    · rcases List.mem_cons.mp h with h | h
      · exact absurd h (by decide)
      · exact (hchars k hk).2.1 h
  have hparts_ne : ((m.map Prod.fst).mergeSort lexLe).map
      (fun k => k ++ '=' :: ((assocGet m k).getD [])) ≠ [] := by
    simpa using hkne
  have hsplitOn : ((serializeHash m).drop 1).splitOn '&'
      = ((m.map Prod.fst).mergeSort lexLe).map
          (fun k => k ++ '=' :: ((assocGet m k).getD [])) := by
    rw [hser]
    simpa using List.splitOn_intercalate _ '&' hx hparts_ne
  have hfold : parseHash (serializeHash m)
      = (((m.map Prod.fst).mergeSort lexLe).map
          (fun k => k ++ '=' :: ((assocGet m k).getD []))).foldl parseHashStep
          (fun _ => none) := by
    unfold parseHash
    rw [hsplitOn]
  have heval := parse_foldl_eval (fun k => (assocGet m k).getD [])
    ((m.map Prod.fst).mergeSort lexLe) (fun _ => none) q
    (fun k hk => ⟨(hchars k hk).1.2, (hchars k hk).2.2⟩)
  rw [hfold, heval]
  by_cases hq : q ∈ (m.map Prod.fst).mergeSort lexLe
  · obtain ⟨v, hv, hm2⟩ := hkeyval q hq
    rw [if_pos hq]
    simp [hv]
  · have hnq : q ∉ m.map Prod.fst := fun hmm => hq (hperm.mem_iff.mpr hmm)
    rw [if_neg hq, assocGet_eq_none m q hnq]

theorem c8_hash_roundtrip_witness :
    parseHash (serializeHash [(['a'], ['1'])]) ['a'] = assocGet [(['a'], ['1'])] ['a'] :=
  c8_hash_roundtrip [(['a'], ['1'])] (by decide) (by decide) (by decide) ['a']
